import Mathlib

/-!
Verification of the routing / middleware dispatch core of the express6
package (TypeScript), via a shallow embedding in Lean 4.

The embedding covers:
* `Layer.handle_error`, `Layer.handle_request` and `Layer.match`
  (src/router/layer.ts),
* `decode_param` (src/router/layer.ts),
* `Route._handles_method` and `Route.dispatch` (src/router/route.ts),
* `Express.set` with `compileETag` / `compileQueryParser` / `compileTrust`
  (src/express.ts, src/utils.ts) and the prototype-based settings
  inheritance of mounted child applications.

JavaScript values that the dispatch engine inspects (truthiness, strict
string comparison, Error objects carrying status fields) are modelled by
the inductive `JsValue`.  Handlers are modelled by their observable
behaviour: declared arity (`Function.prototype.length`), the sequence of
calls the body makes to the continuation, and the way the body terminates
(plain return, returned promise that resolves or rejects, or synchronous
throw).  External platform functions (`decodeURIComponent`, the compiled
path-to-regexp matcher) are abstracted as explicit function parameters,
since they are not part of this repository.
-/

namespace Express6

/-- A JavaScript value, to the extent the dispatch engine inspects values:
`undefined`, `null`, booleans, numbers, strings, Error objects (with the
optional `status` / `statusCode` fields that express attaches), and
function values identified by a tag. -/
inductive JsValue where
  | undef
  | null
  | bool (b : Bool)
  | num (n : Int)
  | str (s : String)
  | errObj (msg : String) (status : Option Nat) (statusCode : Option Nat)
  | fn (tag : String)
deriving DecidableEq, Repr

/-- JavaScript truthiness of a `JsValue`. -/
def truthy : JsValue → Bool
  | .undef => false
  | .null => false
  | .bool b => b
  | .num n => decide (n ≠ 0)
  | .str s => decide (s ≠ "")
  | .errObj _ _ _ => true
  | .fn _ => true

/-- JavaScript `a || b`. -/
def jsOr (a b : JsValue) : JsValue := if truthy a then a else b

/-- How a handler body terminates: with a plain (non-promise) return value,
with a returned promise that later resolves, with a returned promise that
later rejects carrying `reason`, or by throwing `e` synchronously. -/
inductive RetVal where
  | plain
  | promiseResolved
  | promiseRejected (reason : JsValue)
deriving DecidableEq, Repr

inductive Outcome where
  | ret (v : RetVal)
  | thr (e : JsValue)
deriving DecidableEq, Repr

/-- Observable behaviour of a registered handler function: its declared
parameter count (`Function.prototype.length`, inspected by the Layer), the
arguments of the calls its body makes to the continuation `next`
(`none` models `next()`, `some v` models `next(v)`), and its outcome. -/
structure Handler where
  length : Nat
  nextCalls : List (Option JsValue)
  outcome : Outcome
deriving DecidableEq, Repr

/-- The compiled matcher of a Layer.  `exec` abstracts the regular
expression produced by the external path-to-regexp library: on a match it
yields `match[0]` together with the capture list `match[1..]` (a capture
group that did not participate is `none`).  `fast_slash` and `fast_star`
are the fast-path flags the Layer constructor attaches. -/
structure RegexpModel where
  fast_slash : Bool
  fast_star : Bool
  exec : String → Option (String × List (Option String))

/-- A Layer (src/router/layer.ts): handler, optional method tag, compiled
matcher, the key names produced by path-to-regexp, and the transient match
fields `params` / `path` (`none` models `undefined`). -/
structure Layer where
  handle : Handler
  name : String
  method : Option String
  regexp : RegexpModel
  keys : List String
  params : Option (List (String × Option String))
  path : Option String

/-- Result of `handle_error` / `handle_request`: whether the layer invoked
the handler, and the arguments of all resulting `next` calls in order
(`none` models `next()`). -/
structure HandleResult where
  invoked : Bool
  calls : List (Option JsValue)
deriving DecidableEq, Repr

/-- The synthesized rejection error: `new Error("Rejected promise")`. -/
def rejectedPromiseError : JsValue := .errObj "Rejected promise" none none

/-- The `next` calls produced by the promise-rejection hook that the layer
attaches to a returned promise:
`ret.then(null, function (error) \x7b next(error || new Error("Rejected promise")) \x7d)`. -/
def promiseCalls : RetVal → List (Option JsValue)
  | .promiseRejected reason => [some (jsOr reason rejectedPromiseError)]
  | _ => []

/-- `Layer.handle_error(error, req, res, next)` (src/router/layer.ts):
if the handler arity is not 4, forward via `next(error)` without invoking;
otherwise invoke the handler, funnel a synchronous throw into `next(err)`,
and attach the rejection hook to a returned promise. -/
def Layer.handle_error (l : Layer) (error : JsValue) : HandleResult :=
  let f := l.handle
  if f.length ≠ 4 then ⟨false, [some error]⟩
  else
    match f.outcome with
    | .thr e => ⟨true, f.nextCalls ++ [some e]⟩
    | .ret v => ⟨true, f.nextCalls ++ promiseCalls v⟩

/-- `Layer.handle_request(req, res, next)` (src/router/layer.ts):
if the handler arity is greater than 3, call `next()` without invoking;
otherwise invoke the handler, funnel a synchronous throw into `next(err)`,
and attach the rejection hook to a returned promise. -/
def Layer.handle_request (l : Layer) : HandleResult :=
  let f := l.handle
  if f.length > 3 then ⟨false, [none]⟩
  else
    match f.outcome with
    | .thr e => ⟨true, f.nextCalls ++ [some e]⟩
    | .ret v => ⟨true, f.nextCalls ++ promiseCalls v⟩

/-- C1: the declared arity of the handler is the sole discriminator:
`handle_error` invokes the handler exactly when the arity is 4 and
otherwise forwards the error to `next` untouched; `handle_request` invokes
the handler exactly when the arity is at most 3 and otherwise calls
`next()` without invoking it. -/
theorem layer_arity_discriminates (l : Layer) (e : JsValue) :
    ((Layer.handle_error l e).invoked ↔ l.handle.length = 4) ∧
    (l.handle.length ≠ 4 → Layer.handle_error l e = ⟨false, [some e]⟩) ∧
    ((Layer.handle_request l).invoked ↔ l.handle.length ≤ 3) ∧
    (3 < l.handle.length → Layer.handle_request l = ⟨false, [none]⟩) := by
  unfold Layer.handle_error Layer.handle_request
  rcases h : l.handle.outcome with v | e2 <;>
    by_cases h4 : l.handle.length = 4 <;>
    by_cases h3 : 3 < l.handle.length <;>
    simp [h4, h, h3] <;> omega

/-- Witness for C1 at a concrete arity-5 handler: neither dispatch path
invokes it; the error path forwards the error, the request path calls
`next()`. -/
theorem layer_arity_discriminates_witness :
    Layer.handle_error
        ⟨⟨5, [], .ret .plain⟩, "h", none, ⟨false, false, fun _ => none⟩, [], none, none⟩
        (JsValue.str "boom")
      = ⟨false, [some (JsValue.str "boom")]⟩ ∧
    Layer.handle_request
        ⟨⟨5, [], .ret .plain⟩, "h", none, ⟨false, false, fun _ => none⟩, [], none, none⟩
      = ⟨false, [none]⟩ := by
  have h := layer_arity_discriminates
    ⟨⟨5, [], .ret .plain⟩, "h", none, ⟨false, false, fun _ => none⟩, [], none, none⟩
    (JsValue.str "boom")
  exact ⟨h.2.1 (by decide), h.2.2.2 (by decide)⟩

/-- A Route (src/router/route.ts): its Layer stack, the set of method
names registered with value `true` in `this.methods`, and the synthetic
`this.methods._all` flag set by `Route.all`. -/
structure Route where
  path : String
  stack : List Layer
  methods : List String
  methodsAll : Bool

/-- JavaScript `String.prototype.toLowerCase` on the ASCII method names
the router deals with, modelled characterwise. -/
def jsToLower (s : String) : String := ⟨s.data.map Char.toLower⟩

/-- `Route._handles_method(method)` (src/router/route.ts): true when the
`_all` flag is set; otherwise the lowercased method is looked up, with
`head` falling back to `get` when no explicit `head` handler exists. -/
def Route._handles_method (r : Route) (method : String) : Bool :=
  if r.methodsAll then true
  else
    let name := jsToLower method
    let name2 := if name = "head" && !(r.methods.contains "head") then "get" else name
    r.methods.contains name2

/-- `if (err && err === s)`: the sentinel test applied by `next` inside
`Route.dispatch`, combining JavaScript truthiness and strict string
equality. -/
def isSentinel (err : Option JsValue) (s : String) : Bool :=
  match err with
  | some v => truthy v && decide (v = .str s)
  | none => false

/-- `if (layer.method && layer.method !== method)`: a layer is skipped
when its method tag is truthy (set and non-empty) and differs from the
dispatch method. -/
def layerSkips (l : Layer) (method : String) : Bool :=
  match l.method with
  | some m => decide (m ≠ "") && decide (m ≠ method)
  | none => false

/-- The `next` closure of `Route.dispatch` (src/router/route.ts), as a
fuelled state machine.  The state is the shared cursor `idx` plus the list
of pending continuation invocations (`none` models `next()`, `some v`
models `next(v)`); invoking a layer prepends the `next` calls its handler
produces, which reproduces the synchronous re-entrant call order.  The
result collects the arguments of all `done` calls in order (`none` models
`done()`) and the indices of the layers whose handler was invoked. -/
def runNext (stack : List Layer) (method : String) :
    Nat → Nat → List (Option JsValue) → List (Option JsValue) × List Nat
  | _, _, [] => ([], [])
  | 0, _, _ :: _ => ([], [])
  | Nat.succ fuel, idx, err :: pending =>
    if isSentinel err "route" then
      let r := runNext stack method fuel idx pending
      (none :: r.1, r.2)
    else if isSentinel err "router" then
      let r := runNext stack method fuel idx pending
      (err :: r.1, r.2)
    else
      match stack[idx]? with
      | none =>
        let r := runNext stack method fuel (idx + 1) pending
        (err :: r.1, r.2)
      | some layer =>
        if layerSkips layer method then
          runNext stack method fuel (idx + 1) (err :: pending)
        else
          let res := match err with
            | some e => Layer.handle_error layer e
            | none => Layer.handle_request layer
          let r := runNext stack method fuel (idx + 1) (res.calls ++ pending)
          (r.1, idx :: r.2)

/-- Method normalization performed by `Route.dispatch`:
`req.method.toLowerCase()`, with `head` aliased to `get` when the route
has no explicit `head` handler. -/
def normalizeMethod (r : Route) (reqMethod : String) : String :=
  let method := jsToLower reqMethod
  if method = "head" && !(r.methods.contains "head") then "get" else method

/-- `Route.dispatch(req, res, done)` (src/router/route.ts): an empty stack
immediately yields `done()`; otherwise the normalized method is computed
and the `next` loop starts with a single pending `next()` call at index 0. -/
def Route.dispatch (r : Route) (reqMethod : String) (fuel : Nat) :
    List (Option JsValue) × List Nat :=
  if r.stack.length = 0 then ([none], [])
  else runNext r.stack (normalizeMethod r reqMethod) fuel 0 [none]

lemma runNext_nil (stack : List Layer) (method : String) (fuel idx : Nat) :
    runNext stack method fuel idx [] = ([], []) := by
  cases fuel <;> rfl

/-- Every invoked layer index points at a layer of the stack that was not
skippable for the dispatch method. -/
lemma runNext_invoked_not_skipped (stack : List Layer) (method : String) :
    ∀ fuel idx pending j, j ∈ (runNext stack method fuel idx pending).2 →
      ∃ l, stack[j]? = some l ∧ layerSkips l method = false := by
  intro fuel
  induction fuel with
  | zero =>
    intro idx pending j hj
    cases pending with
    | nil => simp [runNext] at hj
    | cons a rest => simp [runNext] at hj
  | succ fuel ih =>
    intro idx pending j hj
    cases pending with
    | nil => simp [runNext] at hj
    | cons err rest =>
      rw [runNext] at hj
      split at hj
      · exact ih idx rest j hj
      · split at hj
        · exact ih idx rest j hj
        · cases hget : stack[idx]? with
          | none =>
            rw [hget] at hj
            exact ih (idx + 1) rest j hj
          | some layer =>
            rw [hget] at hj
            dsimp only at hj
            by_cases hskip : layerSkips layer method = true
            · rw [if_pos hskip] at hj
              exact ih (idx + 1) (err :: rest) j hj
            · rw [if_neg hskip] at hj
              rcases List.mem_cons.1 hj with h | h
              · subst h
                exact ⟨layer, hget, by simpa using hskip⟩
              · exact ih (idx + 1) _ j h

/-- C4: with no explicit `head` handler, a HEAD request dispatches exactly
as a GET request does; `_handles_method` reports HEAD handled whenever GET
is handled; and a layer whose method tag is a non-empty string differing
from the normalized dispatch method is never invoked. -/
theorem route_head_falls_back_to_get (r : Route) (fuel : Nat) :
    (r.methods.contains "head" = false →
      Route.dispatch r "HEAD" fuel = Route.dispatch r "GET" fuel) ∧
    (Route._handles_method r "GET" = true → Route._handles_method r "HEAD" = true) ∧
    (∀ reqMethod j l m, r.stack[j]? = some l → l.method = some m → m ≠ "" →
      m ≠ normalizeMethod r reqMethod → j ∉ (Route.dispatch r reqMethod fuel).2) := by
  refine ⟨?_, ?_, ?_⟩
  · intro h
    unfold Route.dispatch
    have hH : normalizeMethod r "HEAD" = "get" := by
      unfold normalizeMethod
      have h1 : jsToLower "HEAD" = "head" := by decide
      rw [h1]
      simp only [h]
      simp
    have hG : normalizeMethod r "GET" = "get" := by
      unfold normalizeMethod
      have h1 : jsToLower "GET" = "get" := by decide
      rw [h1]
      simp
    rw [hH, hG]
  · intro h
    unfold Route._handles_method at h ⊢
    by_cases hall : r.methodsAll
    · simp [hall]
    · have hG : jsToLower "GET" = "get" := by decide
      have hH : jsToLower "HEAD" = "head" := by decide
      simp only [hall, if_false, hG, hH] at h ⊢
      cases hh : r.methods.contains "head" with
      | true =>
        simp [hh]
        exact List.mem_of_elem_eq_true hh
      | false =>
        simp only [hh] at h ⊢
        simp at h ⊢
        exact h
  · intro reqMethod j l m hget hm hne hne2 hj
    unfold Route.dispatch at hj
    by_cases hempty : r.stack.length = 0
    · simp [hempty] at hj
    · simp only [hempty, if_false] at hj
      obtain ⟨l2, hget2, hskip⟩ :=
        runNext_invoked_not_skipped r.stack (normalizeMethod r reqMethod) fuel 0 [none] j hj
      rw [hget] at hget2
      injection hget2 with hl
      subst hl
      unfold layerSkips at hskip
      rw [hm] at hskip
      simp [hne, hne2] at hskip

/-- Witness for C4: a route with a `get` and a `post` layer and no `head`
handler; HEAD dispatch equals GET dispatch, `_handles_method` accepts
HEAD, and the `post` layer (index 1) is not invoked on a GET dispatch. -/
theorem route_head_falls_back_to_get_witness :
    Route.dispatch
        ⟨"/x",
         [⟨⟨3, [none], .ret .plain⟩, "g", some "get", ⟨false, false, fun _ => none⟩, [], none, none⟩,
          ⟨⟨3, [none], .ret .plain⟩, "p", some "post", ⟨false, false, fun _ => none⟩, [], none, none⟩],
         ["get", "post"], false⟩ "HEAD" 9
      = Route.dispatch
        ⟨"/x",
         [⟨⟨3, [none], .ret .plain⟩, "g", some "get", ⟨false, false, fun _ => none⟩, [], none, none⟩,
          ⟨⟨3, [none], .ret .plain⟩, "p", some "post", ⟨false, false, fun _ => none⟩, [], none, none⟩],
         ["get", "post"], false⟩ "GET" 9 ∧
    Route._handles_method
        ⟨"/x",
         [⟨⟨3, [none], .ret .plain⟩, "g", some "get", ⟨false, false, fun _ => none⟩, [], none, none⟩,
          ⟨⟨3, [none], .ret .plain⟩, "p", some "post", ⟨false, false, fun _ => none⟩, [], none, none⟩],
         ["get", "post"], false⟩ "HEAD" = true ∧
    1 ∉ (Route.dispatch
        ⟨"/x",
         [⟨⟨3, [none], .ret .plain⟩, "g", some "get", ⟨false, false, fun _ => none⟩, [], none, none⟩,
          ⟨⟨3, [none], .ret .plain⟩, "p", some "post", ⟨false, false, fun _ => none⟩, [], none, none⟩],
         ["get", "post"], false⟩ "GET" 9).2 := by
  have h := route_head_falls_back_to_get
    ⟨"/x",
     [⟨⟨3, [none], .ret .plain⟩, "g", some "get", ⟨false, false, fun _ => none⟩, [], none, none⟩,
      ⟨⟨3, [none], .ret .plain⟩, "p", some "post", ⟨false, false, fun _ => none⟩, [], none, none⟩],
     ["get", "post"], false⟩ 9
  refine ⟨h.1 (by decide), h.2.1 (by decide), ?_⟩
  refine h.2.2 "GET" 1 _ "post" rfl rfl (by decide) ?_
  have : normalizeMethod
      ⟨"/x",
       [⟨⟨3, [none], .ret .plain⟩, "g", some "get", ⟨false, false, fun _ => none⟩, [], none, none⟩,
        ⟨⟨3, [none], .ret .plain⟩, "p", some "post", ⟨false, false, fun _ => none⟩, [], none, none⟩],
       ["get", "post"], false⟩ "GET" = "get" := by
    unfold normalizeMethod
    decide
  rw [this]
  decide

lemma layerSkips_congr (l1 l2 : Layer) (h : l1.method = l2.method) (m : String) :
    layerSkips l1 m = layerSkips l2 m := by
  unfold layerSkips
  rw [h]

/-- Dispatch depends on a layer only through its method tag and the
results of `handle_request` / `handle_error`. -/
lemma runNext_congr (stack1 stack2 : List Layer)
    (hm : ∀ j : Nat, (stack1[j]?).map Layer.method = (stack2[j]?).map Layer.method)
    (hh : ∀ (j : Nat) (l1 l2 : Layer), stack1[j]? = some l1 → stack2[j]? = some l2 →
      Layer.handle_request l1 = Layer.handle_request l2 ∧
      ∀ e, Layer.handle_error l1 e = Layer.handle_error l2 e)
    (method : String) :
    ∀ fuel idx pending,
      runNext stack1 method fuel idx pending = runNext stack2 method fuel idx pending := by
  intro fuel
  induction fuel with
  | zero => intro idx pending; cases pending <;> rfl
  | succ fuel ih =>
    intro idx pending
    cases pending with
    | nil => rfl
    | cons err rest =>
      rw [runNext, runNext]
      by_cases h1 : isSentinel err "route" = true
      · rw [if_pos h1, if_pos h1, ih idx rest]
      · rw [if_neg h1, if_neg h1]
        by_cases h2 : isSentinel err "router" = true
        · rw [if_pos h2, if_pos h2, ih idx rest]
        · rw [if_neg h2, if_neg h2]
          cases hget1 : stack1[idx]? with
          | none =>
            have hmj := hm idx
            rw [hget1] at hmj
            have hget2 : stack2[idx]? = none := by
              cases hget2 : stack2[idx]? with
              | none => rfl
              | some l2 => rw [hget2] at hmj; exact absurd hmj (by simp)
            rw [hget2]
            dsimp only
            rw [ih (idx + 1) rest]
          | some l1 =>
            have hmj := hm idx
            rw [hget1] at hmj
            cases hget2 : stack2[idx]? with
            | none => rw [hget2] at hmj; exact absurd hmj (by simp)
            | some l2 =>
              rw [hget2] at hmj
              have hmeth : l1.method = l2.method := by
                simpa using hmj
              have hhl := hh idx l1 l2 hget1 hget2
              dsimp only
              rw [layerSkips_congr l1 l2 hmeth method]
              by_cases hskip : layerSkips l2 method = true
              · rw [if_pos hskip, if_pos hskip]
                exact ih (idx + 1) (err :: rest)
              · rw [if_neg hskip, if_neg hskip]
                cases err with
                | none =>
                  dsimp only
                  rw [hhl.1, ih (idx + 1) _]
                | some e =>
                  dsimp only
                  rw [hhl.2 e, ih (idx + 1) _]

/-- The handler model of a handler that throws `e` synchronously. -/
def throwHandler (n : Nat) (e : JsValue) : Handler := ⟨n, [], .thr e⟩

/-- The handler model of a handler that calls `next(e)` and returns a
plain value. -/
def nextErrHandler (n : Nat) (e : JsValue) : Handler := ⟨n, [some e], .ret .plain⟩

/-- C2: a handler that throws `e` synchronously is equivalent, for
dispatch purposes, to one of the same arity that calls `next(e)`: both
`handle_request` and `handle_error` yield identical continuation calls,
and a dispatch through a stack containing one layer behaves identically
to a dispatch through the same stack with the other layer in its place. -/
theorem handler_throw_equiv_next_error (n : Nat) (e : JsValue) (l1 l2 : Layer)
    (h1 : l1.handle = throwHandler n e) (h2 : l2.handle = nextErrHandler n e)
    (hmeth : l1.method = l2.method) :
    Layer.handle_request l1 = Layer.handle_request l2 ∧
    (∀ e2, Layer.handle_error l1 e2 = Layer.handle_error l2 e2) ∧
    (∀ (pre post : List Layer) (method : String) (fuel idx : Nat)
        (pending : List (Option JsValue)),
      runNext (pre ++ l1 :: post) method fuel idx pending
        = runNext (pre ++ l2 :: post) method fuel idx pending) := by
  have hreq : Layer.handle_request l1 = Layer.handle_request l2 := by
    unfold Layer.handle_request
    rw [h1, h2]
    unfold throwHandler nextErrHandler promiseCalls
    by_cases h3 : n > 3 <;> simp [h3]
  have herr : ∀ e2, Layer.handle_error l1 e2 = Layer.handle_error l2 e2 := by
    intro e2
    unfold Layer.handle_error
    rw [h1, h2]
    unfold throwHandler nextErrHandler promiseCalls
    by_cases h4 : n ≠ 4 <;> simp [h4]
  refine ⟨hreq, herr, ?_⟩
  intro pre post method fuel idx pending
  refine runNext_congr (pre ++ l1 :: post) (pre ++ l2 :: post) ?_ ?_ method fuel idx pending
  · intro j
    by_cases hlt : j < pre.length
    · rw [List.getElem?_append_left hlt, List.getElem?_append_left hlt]
    · push_neg at hlt
      rw [List.getElem?_append_right hlt, List.getElem?_append_right hlt]
      cases hd : j - pre.length with
      | zero => simp [hmeth]
      | succ k => simp
  · intro j la lb hga hgb
    by_cases hlt : j < pre.length
    · rw [List.getElem?_append_left hlt] at hga hgb
      rw [hga] at hgb
      injection hgb with hab
      subst hab
      exact ⟨rfl, fun _ => rfl⟩
    · push_neg at hlt
      rw [List.getElem?_append_right hlt] at hga hgb
      cases hd : j - pre.length with
      | zero =>
        rw [hd] at hga hgb
        simp only [List.getElem?_cons_zero] at hga hgb
        injection hga with hga2
        injection hgb with hgb2
        subst hga2
        subst hgb2
        exact ⟨hreq, herr⟩
      | succ k =>
        rw [hd] at hga hgb
        simp only [List.getElem?_cons_succ] at hga hgb
        rw [hga] at hgb
        injection hgb with hab
        subst hab
        exact ⟨rfl, fun _ => rfl⟩

/-- Witness for C2: concrete arity-3 throwing and `next(e)`-calling
layers produce the same `handle_request` result and the same dispatch
through a two-layer stack. -/
theorem handler_throw_equiv_next_error_witness :
    Layer.handle_request
        ⟨throwHandler 3 (JsValue.errObj "boom" none none), "t", none,
         ⟨false, false, fun _ => none⟩, [], none, none⟩
      = Layer.handle_request
        ⟨nextErrHandler 3 (JsValue.errObj "boom" none none), "u", none,
         ⟨false, false, fun _ => none⟩, [], none, none⟩ ∧
    runNext
        [⟨throwHandler 3 (JsValue.errObj "boom" none none), "t", none,
          ⟨false, false, fun _ => none⟩, [], none, none⟩,
         ⟨⟨4, [none], .ret .plain⟩, "eh", none,
          ⟨false, false, fun _ => none⟩, [], none, none⟩] "get" 9 0 [none]
      = runNext
        [⟨nextErrHandler 3 (JsValue.errObj "boom" none none), "u", none,
          ⟨false, false, fun _ => none⟩, [], none, none⟩,
         ⟨⟨4, [none], .ret .plain⟩, "eh", none,
          ⟨false, false, fun _ => none⟩, [], none, none⟩] "get" 9 0 [none] := by
  have h := handler_throw_equiv_next_error 3 (JsValue.errObj "boom" none none)
    ⟨throwHandler 3 (JsValue.errObj "boom" none none), "t", none,
     ⟨false, false, fun _ => none⟩, [], none, none⟩
    ⟨nextErrHandler 3 (JsValue.errObj "boom" none none), "u", none,
     ⟨false, false, fun _ => none⟩, [], none, none⟩
    rfl rfl rfl
  exact ⟨h.1, h.2.2 []
    [⟨⟨4, [none], .ret .plain⟩, "eh", none, ⟨false, false, fun _ => none⟩, [], none, none⟩]
    "get" 9 0 [none]⟩

/-- C3, counterexample to the claim as stated: a handler whose returned
promise rejects with the provided reason `false` (a falsy but explicitly
provided rejection reason) does not pass that reason to `next`; the layer
substitutes the synthesized `Error("Rejected promise")` instead, because
the source guards with JavaScript truthiness
(`error || new Error("Rejected promise")`), not with presence. -/
theorem rejected_promise_reason_not_forwarded :
    (Layer.handle_request
        ⟨⟨3, [], .ret (.promiseRejected (JsValue.bool false))⟩, "h", none,
         ⟨false, false, fun _ => none⟩, [], none, none⟩).calls
      = [some rejectedPromiseError] ∧
    (Layer.handle_request
        ⟨⟨3, [], .ret (.promiseRejected (JsValue.bool false))⟩, "h", none,
         ⟨false, false, fun _ => none⟩, [], none, none⟩).calls
      ≠ [some (JsValue.bool false)] := by
  constructor
  · rfl
  · decide

/-- C3 as amended: when a handler's returned promise rejects, the layer
funnels the rejection into `next`: `next` receives the original rejection
reason when that reason is truthy, and otherwise (reason `undefined`,
`null`, `false`, `0` or the empty string) receives the synthesized Error
whose message is exactly `Rejected promise`.  This holds for
`handle_request` at arity at most 3 and for `handle_error` at arity 4. -/
theorem rejected_promise_funnels_into_next (lreq lerr : Layer) (r : JsValue)
    (cs3 cs4 : List (Option JsValue)) (n3 n4 : Nat)
    (hreq : lreq.handle = ⟨n3, cs3, .ret (.promiseRejected r)⟩) (h3 : n3 ≤ 3)
    (herr : lerr.handle = ⟨n4, cs4, .ret (.promiseRejected r)⟩) (h4 : n4 = 4)
    (e : JsValue) :
    (Layer.handle_request lreq).calls
      = cs3 ++ [some (if truthy r = true then r else rejectedPromiseError)] ∧
    (Layer.handle_error lerr e).calls
      = cs4 ++ [some (if truthy r = true then r else rejectedPromiseError)] := by
  constructor
  · unfold Layer.handle_request
    rw [hreq]
    have hn : ¬(3 < n3) := by omega
    simp only [hn, if_false]
    simp [promiseCalls, jsOr]
  · unfold Layer.handle_error
    rw [herr]
    simp only [h4]
    simp [promiseCalls, jsOr]

/-- Witness for the amended C3 at arity 3 / arity 4 layers whose promise
rejects with the truthy reason `Error("bad")`. -/
theorem rejected_promise_funnels_into_next_witness :
    (Layer.handle_request
        ⟨⟨3, [], .ret (.promiseRejected (JsValue.errObj "bad" none none))⟩, "h", none,
         ⟨false, false, fun _ => none⟩, [], none, none⟩).calls
      = [some (JsValue.errObj "bad" none none)] ∧
    (Layer.handle_error
        ⟨⟨4, [], .ret (.promiseRejected (JsValue.errObj "bad" none none))⟩, "h", none,
         ⟨false, false, fun _ => none⟩, [], none, none⟩ (JsValue.str "e")).calls
      = [some (JsValue.errObj "bad" none none)] := by
  have h := rejected_promise_funnels_into_next
    ⟨⟨3, [], .ret (.promiseRejected (JsValue.errObj "bad" none none))⟩, "h", none,
     ⟨false, false, fun _ => none⟩, [], none, none⟩
    ⟨⟨4, [], .ret (.promiseRejected (JsValue.errObj "bad" none none))⟩, "h", none,
     ⟨false, false, fun _ => none⟩, [], none, none⟩
    (JsValue.errObj "bad" none none) [] [] 3 4 rfl (by decide) rfl rfl (JsValue.str "e")
  exact ⟨by rw [h.1]; rfl, by rw [h.2]; rfl⟩

/-- C5: a continuation invocation carrying the sentinel string `route`
immediately produces `done()` with no argument and invokes no layer; the
sentinel `router` immediately produces `done` carrying the `router` signal
and invokes no layer. -/
theorem route_dispatch_sentinels (stack : List Layer) (method : String)
    (fuel idx : Nat) :
    runNext stack method (fuel + 1) idx [some (JsValue.str "route")] = ([none], []) ∧
    runNext stack method (fuel + 1) idx [some (JsValue.str "router")]
      = ([some (JsValue.str "router")], []) := by
  constructor
  · rw [runNext]
    have h1 : isSentinel (some (JsValue.str "route")) "route" = true := by decide
    simp [h1, runNext_nil]
  · rw [runNext]
    have h1 : isSentinel (some (JsValue.str "router")) "route" = false := by decide
    have h2 : isSentinel (some (JsValue.str "router")) "router" = true := by decide
    simp [h1, h2, runNext_nil]

/-- C6: dispatching a Route whose stack is empty immediately calls
`done()` with no arguments and invokes no layer. -/
theorem route_dispatch_empty_stack (r : Route) (reqMethod : String) (fuel : Nat)
    (h : r.stack = []) : Route.dispatch r reqMethod fuel = ([none], []) := by
  unfold Route.dispatch
  simp [h]

/-- Witness for C6 at a concrete empty route. -/
theorem route_dispatch_empty_stack_witness :
    Route.dispatch ⟨"/x", [], [], false⟩ "GET" 3 = ([none], []) :=
  route_dispatch_empty_stack ⟨"/x", [], [], false⟩ "GET" 3 rfl

/-- `decode_param(val)` (src/router/layer.ts), parameterized by the
platform percent-decoder `d` (modelling `decodeURIComponent`; `none`
models a thrown `URIError`).  A non-string (`undefined`) or empty value is
returned unchanged; a decoder failure is re-thrown after the message is
set to identify the parameter and `status` / `statusCode` are set to 400. -/
def decode_param (d : String → Option String) (val : Option String) :
    Except JsValue (Option String) :=
  match val with
  | none => .ok none
  | some s =>
    if s.length = 0 then .ok (some s)
    else
      match d s with
      | some decoded => .ok (some decoded)
      | none =>
        .error (.errObj ("Failed to decode param \x27" ++ s ++ "\x27")
          (some 400) (some 400))

/-- `hasOwnProperty.call(params, prop)` on the params object, modelled as
an association list of own properties. -/
def hasKey (ps : List (String × Option String)) (k : String) : Bool :=
  ps.any (fun p => p.1 = k)

/-- `params[prop] = val`: own-property assignment on the params object. -/
def setKey (ps : List (String × Option String)) (k : String) (v : Option String) :
    List (String × Option String) :=
  if hasKey ps k then ps.map (fun p => if p.1 = k then (k, v) else p)
  else ps ++ [(k, v)]

/-- The capture loop of `Layer.match` (src/router/layer.ts): for each
capture paired with its key name, decode it via `decode_param` (re-throwing
a decode failure) and store it unless it is `undefined` and the property
already exists. -/
def matchLoop (d : String → Option String) :
    List (Option String × String) → List (String × Option String) →
      Except JsValue (List (String × Option String))
  | [], params => .ok params
  | (cap, key) :: rest, params =>
    match decode_param d cap with
    | .error e => .error e
    | .ok val =>
      let params2 :=
        if val.isSome || !(hasKey params key) then setKey params key val else params
      matchLoop d rest params2

/-- Overwrite the transient match fields of a layer. -/
def Layer.setMatch (l : Layer) (params : Option (List (String × Option String)))
    (path : Option String) : Layer :=
  ⟨l.handle, l.name, l.method, l.regexp, l.keys, params, path⟩

/-- `Layer.match(path)` (src/router/layer.ts; named `matchPath` here since
`match` is reserved in Lean).  A null/undefined path skips matching
entirely; the fast paths for `/` (non-terminal) and `*` short-circuit; the
general path runs the compiled matcher and on success decodes every
capture.  The result is the updated layer paired with the boolean match
result, or the error thrown by a failing decode. -/
def Layer.matchPath (d : String → Option String) (l : Layer) (path : Option String) :
    Except JsValue (Layer × Bool) :=
  match path with
  | none => .ok (l.setMatch none none, false)
  | some p =>
    if l.regexp.fast_slash then .ok (l.setMatch (some []) (some ""), true)
    else if l.regexp.fast_star then
      (decode_param d (some p)).map (fun v => (l.setMatch (some [("0", v)]) (some p), true))
    else
      (l.regexp.exec p).elim (.ok (l.setMatch none none, false))
        (fun mc => (matchLoop d (mc.2.zip l.keys) []).map
          (fun ps => (l.setMatch (some ps) (some mc.1), true)))

lemma decode_param_error_shape (d : String → Option String) (val : Option String)
    (e : JsValue) (h : decode_param d val = .error e) :
    ∃ s, d s = none ∧ s.length ≠ 0 ∧
      e = .errObj ("Failed to decode param \x27" ++ s ++ "\x27") (some 400) (some 400) := by
  cases val with
  | none => exact absurd h (by simp [decode_param])
  | some s =>
    by_cases hlen : s.length = 0
    · rw [decode_param, if_pos hlen] at h
      exact absurd h (by simp)
    · rw [decode_param, if_neg hlen] at h
      cases hd : d s with
      | some r => rw [hd] at h; exact absurd h (by simp)
      | none =>
        rw [hd] at h
        injection h with h2
        exact ⟨s, hd, hlen, h2.symm⟩

lemma matchLoop_error_shape (d : String → Option String) :
    ∀ (pairs : List (Option String × String)) (params : List (String × Option String))
      (e : JsValue), matchLoop d pairs params = .error e →
      ∃ s, d s = none ∧ s.length ≠ 0 ∧
        e = .errObj ("Failed to decode param \x27" ++ s ++ "\x27") (some 400) (some 400) := by
  intro pairs
  induction pairs with
  | nil => intro params e h; exact absurd h (by simp [matchLoop])
  | cons pr rest ih =>
    intro params e h
    rw [matchLoop] at h
    cases hd : decode_param d pr.1 with
    | error e2 =>
      rw [hd] at h
      injection h with h2
      subst h2
      exact decode_param_error_shape d pr.1 e2 hd
    | ok val =>
      rw [hd] at h
      exact ih _ e h

/-- C7: every matched capture is percent-decoded through `decode_param`;
a decode failure surfaces as an error whose `status` and `statusCode` are
400 and whose message names the offending value, both from `decode_param`
directly and through `Layer.match`; and whenever `Layer.match` reports a
failed (structural) match it leaves `params` and `path` undefined. -/
theorem layer_match_decode_and_clear (d : String → Option String) :
    (∀ s : String, s.length ≠ 0 → d s = none →
      decode_param d (some s)
        = .error (.errObj ("Failed to decode param \x27" ++ s ++ "\x27")
            (some 400) (some 400))) ∧
    (∀ (l : Layer) (q : Option String) (e : JsValue),
      Layer.matchPath d l q = .error e →
      ∃ s, d s = none ∧ s.length ≠ 0 ∧
        e = .errObj ("Failed to decode param \x27" ++ s ++ "\x27") (some 400) (some 400)) ∧
    (∀ (l l2 : Layer) (q : Option String),
      Layer.matchPath d l q = .ok (l2, false) → l2.params = none ∧ l2.path = none) := by
  refine ⟨?_, ?_, ?_⟩
  · intro s hlen hd
    rw [decode_param, if_neg hlen, hd]
  · intro l q e h
    cases q with
    | none => exact absurd h (by simp [Layer.matchPath])
    | some p =>
      rw [Layer.matchPath] at h
      by_cases hs : l.regexp.fast_slash = true
      · rw [if_pos hs] at h
        exact absurd h (by simp)
      · rw [if_neg hs] at h
        by_cases hst : l.regexp.fast_star = true
        · rw [if_pos hst] at h
          cases hd : decode_param d (some p) with
          | error e2 =>
            rw [hd] at h
            simp only [Except.map] at h
            injection h with h2
            subst h2
            exact decode_param_error_shape d (some p) e2 hd
          | ok v =>
            rw [hd] at h
            simp only [Except.map] at h
            exact absurd h (by simp)
        · rw [if_neg hst] at h
          cases hex : l.regexp.exec p with
          | none =>
            rw [hex] at h
            simp only [Option.elim] at h
            exact absurd h (by simp)
          | some mc =>
            rw [hex] at h
            simp only [Option.elim] at h
            cases hml : matchLoop d (mc.2.zip l.keys) [] with
            | error e2 =>
              rw [hml] at h
              simp only [Except.map] at h
              injection h with h2
              subst h2
              exact matchLoop_error_shape d _ [] e2 hml
            | ok ps =>
              rw [hml] at h
              simp only [Except.map] at h
              exact absurd h (by simp)
  · intro l l2 q h
    cases q with
    | none =>
      rw [Layer.matchPath] at h
      simp only [Except.ok.injEq, Prod.mk.injEq, and_true] at h
      rw [← h]
      exact ⟨rfl, rfl⟩
    | some p =>
      rw [Layer.matchPath] at h
      by_cases hs : l.regexp.fast_slash = true
      · rw [if_pos hs] at h
        simp at h
      · rw [if_neg hs] at h
        by_cases hst : l.regexp.fast_star = true
        · rw [if_pos hst] at h
          cases hd : decode_param d (some p) with
          | error e2 =>
            rw [hd] at h
            simp only [Except.map] at h
            exact absurd h (by simp)
          | ok v =>
            rw [hd] at h
            simp only [Except.map] at h
            simp at h
        · rw [if_neg hst] at h
          cases hex : l.regexp.exec p with
          | none =>
            rw [hex] at h
            simp only [Option.elim, Except.ok.injEq, Prod.mk.injEq, and_true] at h
            rw [← h]
            exact ⟨rfl, rfl⟩
          | some mc =>
            rw [hex] at h
            simp only [Option.elim] at h
            cases hml : matchLoop d (mc.2.zip l.keys) [] with
            | error e2 =>
              rw [hml] at h
              simp only [Except.map] at h
              exact absurd h (by simp)
            | ok ps =>
              rw [hml] at h
              simp only [Except.map] at h
              simp at h

/-- Witness for C7, with a decoder that fails on every input: a direct
`decode_param` failure, a `Layer.match` whose single capture fails to
decode, and a structural non-match clearing the transient fields. -/
theorem layer_match_decode_and_clear_witness :
    decode_param (fun _ => none) (some "%zz")
      = .error (.errObj ("Failed to decode param \x27%zz\x27") (some 400) (some 400)) ∧
    (∃ s, (fun _ => (none : Option String)) s = none ∧ s.length ≠ 0 ∧
      JsValue.errObj ("Failed to decode param \x27%zz\x27") (some 400) (some 400)
        = .errObj ("Failed to decode param \x27" ++ s ++ "\x27") (some 400) (some 400)) ∧
    ((Layer.setMatch
        ⟨⟨3, [], .ret .plain⟩, "h", none,
         ⟨false, false, fun _ => none⟩, ["id"], some [("id", some "old")], some "/old"⟩
        none none).params = none ∧
      (Layer.setMatch
        ⟨⟨3, [], .ret .plain⟩, "h", none,
         ⟨false, false, fun _ => none⟩, ["id"], some [("id", some "old")], some "/old"⟩
        none none).path = none) := by
  have h := layer_match_decode_and_clear (fun _ => none)
  refine ⟨h.1 "%zz" (by decide) rfl, ?_, ?_⟩
  · refine h.2.1
      ⟨⟨3, [], .ret .plain⟩, "h", none,
       ⟨false, false, fun p => some (p, [some "%zz"])⟩, ["id"], none, none⟩
      (some "/a") _ ?_
    rfl
  · refine h.2.2
      ⟨⟨3, [], .ret .plain⟩, "h", none,
       ⟨false, false, fun _ => none⟩, ["id"], some [("id", some "old")], some "/old"⟩
      _ (some "/a") ?_
    rfl

/-- C10: matching a null/undefined path returns false and clears the
transient `params` / `path` fields to undefined, for every layer — the
`/` and `*` fast paths never apply to a null path — and no percent-decoding
is attempted: the result does not depend on the decoder at all. -/
theorem layer_match_null_path (d d2 : String → Option String) (l : Layer) :
    Layer.matchPath d l none = .ok (l.setMatch none none, false) ∧
    Layer.matchPath d l none = Layer.matchPath d2 l none := by
  exact ⟨rfl, rfl⟩

/-- JavaScript template-literal coercion of a `JsValue`, used in the
messages of the TypeErrors thrown by the setting compilers. -/
def jsDisplay : JsValue → String
  | .undef => "undefined"
  | .null => "null"
  | .bool true => "true"
  | .bool false => "false"
  | .num n => toString n
  | .str s => s
  | .errObj m _ _ => "Error: " ++ m
  | .fn tag => tag

/-- `compileETag` (src/utils.ts): a function value passes through;
`true` and `weak` compile to the weak etag generator; `false` leaves the
compiled function undefined; `strong` compiles to the strong etag
generator; anything else throws a TypeError (modelled as `.error` with
the thrown message). -/
def compileETag (val : JsValue) : Except String JsValue :=
  match val with
  | .fn tag => .ok (.fn tag)
  | .bool true => .ok (.fn "wetag")
  | .str "weak" => .ok (.fn "wetag")
  | .bool false => .ok .undef
  | .str "strong" => .ok (.fn "etag")
  | v => .error ("unknown value for etag function: " ++ jsDisplay v)

/-- `compileQueryParser` (src/utils.ts): a function value passes through;
`true` and `simple` compile to `querystring.parse`; `false` leaves the
compiled function undefined; `extended` compiles to
`parseExtendedQueryString`; anything else throws a TypeError. -/
def compileQueryParser (val : JsValue) : Except String JsValue :=
  match val with
  | .fn tag => .ok (.fn tag)
  | .bool true => .ok (.fn "querystring.parse")
  | .str "simple" => .ok (.fn "querystring.parse")
  | .bool false => .ok .undef
  | .str "extended" => .ok (.fn "parseExtendedQueryString")
  | v => .error ("unknown value for query parser function: " ++ jsDisplay v)

/-- `compileTrust` (src/utils.ts): a function value passes through; `true`
compiles to the constant-true predicate; a number compiles to a hop-count
predicate; a string is split on commas and compiled by proxyaddr; anything
else is compiled by proxyaddr from `val || []`.  It never throws. -/
def compileTrust : JsValue → JsValue
  | .fn tag => .fn tag
  | .bool true => .fn "trustAlways"
  | .num k => .fn ("trustHops " ++ toString k)
  | .str s => .fn ("proxyaddrCompile " ++ s)
  | _ => .fn "proxyaddrCompileEmpty"

/-- A settings object, as the association list of its own properties. -/
abbrev Settings : Type := List (String × JsValue)

/-- Own-property lookup on a settings object. -/
def settingsLookup (s : Settings) (k : String) : Option JsValue :=
  match s with
  | [] => none
  | p :: rest => if p.1 = k then some p.2 else settingsLookup rest k

/-- `this.settings[setting] = val`: raw own-property assignment. -/
def settingsSet (s : Settings) (k : String) (v : JsValue) : Settings :=
  match s with
  | [] => [(k, v)]
  | p :: rest => if p.1 = k then (k, v) :: rest else p :: settingsSet rest k v

/-- `Express.set(setting, val)` (src/express.ts) acting on the settings
store: the raw value is assigned first, then the recognized keys `etag`,
`query parser` and `trust proxy` derive a compiled companion entry via the
nested `this.set(key + " fn", ...)` call.  The second component is the
message of the TypeError thrown by a failing compile; the raw assignment
survives such a throw because the store was already mutated. -/
def Express.set (s : Settings) (key : String) (val : JsValue) :
    Settings × Option String :=
  let s1 := settingsSet s key val
  if key = "etag" then
    match compileETag val with
    | .ok f => (settingsSet s1 "etag fn" f, none)
    | .error m => (s1, some m)
  else if key = "query parser" then
    match compileQueryParser val with
    | .ok f => (settingsSet s1 "query parser fn" f, none)
    | .error m => (s1, some m)
  else if key = "trust proxy" then
    (settingsSet s1 "trust proxy fn" (compileTrust val), none)
  else (s1, none)

/-- The one-argument overload `Express.set(setting)` (src/express.ts):
`return this.settings[setting]`, an own-property read on a standalone
application. -/
def Express.getSetting (s : Settings) (key : String) : Option JsValue :=
  settingsLookup s key

lemma settingsLookup_set_self (s : Settings) (k : String) (v : JsValue) :
    settingsLookup (settingsSet s k v) k = some v := by
  induction s with
  | nil => simp [settingsSet, settingsLookup]
  | cons p rest ih =>
    by_cases hp : p.1 = k
    · rw [settingsSet, if_pos hp, settingsLookup]
      simp
    · rw [settingsSet, if_neg hp, settingsLookup, if_neg hp]
      exact ih

lemma settingsLookup_set_other (s : Settings) (k k2 : String) (v : JsValue)
    (h : k ≠ k2) : settingsLookup (settingsSet s k2 v) k = settingsLookup s k := by
  have hk : ¬(k2 = k) := fun hh => h hh.symm
  induction s with
  | nil => simp [settingsSet, settingsLookup, hk]
  | cons p rest ih =>
    by_cases hp : p.1 = k2
    · have hpk : ¬(p.1 = k) := by rw [hp]; exact hk
      rw [settingsSet, if_pos hp]
      simp [settingsLookup, hk, hpk]
    · rw [settingsSet, if_neg hp, settingsLookup, settingsLookup]
      by_cases hpk : p.1 = k
      · rw [if_pos hpk, if_pos hpk]
      · rw [if_neg hpk, if_neg hpk]
        exact ih

/-- The raw value assigned by `Express.set` is always readable under its
key afterwards, whether or not a compile step throws: companion entries
live under distinct keys. -/
lemma express_set_lookup_self (s : Settings) (k : String) (v : JsValue) :
    settingsLookup (Express.set s k v).1 k = some v := by
  unfold Express.set
  by_cases h1 : k = "etag"
  · subst h1
    cases hc : compileETag v with
    | ok f =>
      simp only [hc, reduceIte]
      rw [settingsLookup_set_other (settingsSet s "etag" v) "etag" "etag fn" f (by decide)]
      exact settingsLookup_set_self s "etag" v
    | error m =>
      simp only [hc, reduceIte]
      exact settingsLookup_set_self s "etag" v
  · rw [if_neg h1]
    by_cases h2 : k = "query parser"
    · subst h2
      cases hc : compileQueryParser v with
      | ok f =>
        simp only [hc, reduceIte]
        rw [settingsLookup_set_other (settingsSet s "query parser" v) "query parser"
          "query parser fn" f (by decide)]
        exact settingsLookup_set_self s "query parser" v
      | error m =>
        simp only [hc, reduceIte]
        exact settingsLookup_set_self s "query parser" v
    · rw [if_neg h2]
      by_cases h3 : k = "trust proxy"
      · subst h3
        simp only [reduceIte]
        rw [settingsLookup_set_other (settingsSet s "trust proxy" v) "trust proxy"
          "trust proxy fn" (compileTrust v) (by decide)]
        exact settingsLookup_set_self s "trust proxy" v
      · rw [if_neg h3]
        exact settingsLookup_set_self s k v

/-- C9: assigning an unrecognized value to `etag` or to `query parser`
throws a TypeError, but the settings store was already mutated before the
throw: the raw value is assigned under the key, so a subsequent
one-argument `set(key)` read returns it.  The failed `set` is not atomic. -/
theorem set_invalid_value_throws_but_mutates (s : Settings) (v : JsValue) (m m2 : String)
    (he : compileETag v = .error m) (hq : compileQueryParser v = .error m2) :
    (Express.set s "etag" v).2 = some m ∧
    Express.getSetting (Express.set s "etag" v).1 "etag" = some v ∧
    (Express.set s "query parser" v).2 = some m2 ∧
    Express.getSetting (Express.set s "query parser" v).1 "query parser" = some v := by
  refine ⟨?_, express_set_lookup_self s "etag" v, ?_,
    express_set_lookup_self s "query parser" v⟩
  · unfold Express.set
    simp only [he, reduceIte]
  · unfold Express.set
    rw [if_neg (show ¬("query parser" = "etag") from by decide)]
    simp only [hq, reduceIte]

/-- Witness for C9 at the unrecognized setting value `"bogus"` on an empty
settings store. -/
theorem set_invalid_value_throws_but_mutates_witness :
    (Express.set [] "etag" (JsValue.str "bogus")).2
      = some "unknown value for etag function: bogus" ∧
    Express.getSetting (Express.set [] "etag" (JsValue.str "bogus")).1 "etag"
      = some (JsValue.str "bogus") ∧
    (Express.set [] "query parser" (JsValue.str "bogus")).2
      = some "unknown value for query parser function: bogus" ∧
    Express.getSetting (Express.set [] "query parser" (JsValue.str "bogus")).1
        "query parser"
      = some (JsValue.str "bogus") :=
  set_invalid_value_throws_but_mutates [] (JsValue.str "bogus")
    "unknown value for etag function: bogus"
    "unknown value for query parser function: bogus" rfl rfl

/-- The settings view of a parent application with one mounted child,
after the `mount` event has run
`Object.setPrototypeOf(this.settings, parent.settings)` (src/express.ts):
the child keeps its own properties and delegates everything else to the
parent's live settings object. -/
structure MountedState where
  parentSettings : Settings
  childOwn : Settings

/-- The child's one-argument settings accessor `child.set(k)`:
`this.settings[k]` resolves own properties first and otherwise follows the
prototype link to the parent's current settings. -/
def childGet (st : MountedState) (k : String) : Option JsValue :=
  match settingsLookup st.childOwn k with
  | some v => some v
  | none => settingsLookup st.parentSettings k

/-- A post-mount settings operation: a `set(k, v)` call on the parent or
on the child application. -/
inductive SetOp where
  | parentSet (k : String) (v : JsValue)
  | childSet (k : String) (v : JsValue)

def applyOp (st : MountedState) : SetOp → MountedState
  | .parentSet k v => ⟨(Express.set st.parentSettings k v).1, st.childOwn⟩
  | .childSet k v => ⟨st.parentSettings, (Express.set st.childOwn k v).1⟩

def applyOps (st : MountedState) : List SetOp → MountedState
  | [] => st
  | op :: rest => applyOps (applyOp st op) rest

/-- Whether executing `op` can write key `k` on the child's own settings:
a child `set(k2, v)` writes `k2` itself and, for the recognized keys, the
compiled companion key. -/
def childWrites (op : SetOp) (k : String) : Bool :=
  match op with
  | .childSet k2 _ =>
    decide (k2 = k ∨ (k2 = "etag" ∧ k = "etag fn")
      ∨ (k2 = "query parser" ∧ k = "query parser fn")
      ∨ (k2 = "trust proxy" ∧ k = "trust proxy fn"))
  | .parentSet _ _ => false

def isParentSet : SetOp → Bool
  | .parentSet _ _ => true
  | .childSet _ _ => false

/-- `Express.set` leaves every key other than the assigned key and its
compiled companion untouched. -/
lemma express_set_lookup_other (s : Settings) (k2 : String) (v : JsValue) (k : String)
    (h1 : k ≠ k2)
    (h2 : k2 = "etag" → k ≠ "etag fn")
    (h3 : k2 = "query parser" → k ≠ "query parser fn")
    (h4 : k2 = "trust proxy" → k ≠ "trust proxy fn") :
    settingsLookup (Express.set s k2 v).1 k = settingsLookup s k := by
  unfold Express.set
  by_cases he : k2 = "etag"
  · subst he
    cases hc : compileETag v with
    | ok f =>
      simp only [hc, reduceIte]
      rw [settingsLookup_set_other _ k "etag fn" f (h2 rfl)]
      exact settingsLookup_set_other s k "etag" v h1
    | error m =>
      simp only [hc, reduceIte]
      exact settingsLookup_set_other s k "etag" v h1
  · rw [if_neg he]
    by_cases hqp : k2 = "query parser"
    · subst hqp
      cases hc : compileQueryParser v with
      | ok f =>
        simp only [hc, reduceIte]
        rw [settingsLookup_set_other _ k "query parser fn" f (h3 rfl)]
        exact settingsLookup_set_other s k "query parser" v h1
      | error m =>
        simp only [hc, reduceIte]
        exact settingsLookup_set_other s k "query parser" v h1
    · rw [if_neg hqp]
      by_cases htp : k2 = "trust proxy"
      · subst htp
        simp only [reduceIte]
        rw [settingsLookup_set_other _ k "trust proxy fn" (compileTrust v) (h4 rfl)]
        exact settingsLookup_set_other s k "trust proxy" v h1
      · rw [if_neg htp]
        exact settingsLookup_set_other s k k2 v h1

lemma applyOp_childOwn_other (st : MountedState) (op : SetOp) (k : String)
    (h : childWrites op k = false) :
    settingsLookup (applyOp st op).childOwn k = settingsLookup st.childOwn k := by
  cases op with
  | parentSet k2 v => rfl
  | childSet k2 v =>
    unfold childWrites at h
    have hp := of_decide_eq_false h
    push_neg at hp
    exact express_set_lookup_other st.childOwn k2 v k
      (fun hh => hp.1 hh.symm)
      (fun he hk => hp.2.1 he hk)
      (fun he hk => hp.2.2.1 he hk)
      (fun he hk => hp.2.2.2 he hk)

lemma childNotSet_stays_unset (k : String) :
    ∀ (ops : List SetOp) (st : MountedState),
      settingsLookup st.childOwn k = none →
      (∀ op ∈ ops, childWrites op k = false) →
      settingsLookup (applyOps st ops).childOwn k = none := by
  intro ops
  induction ops with
  | nil => intro st h _; exact h
  | cons op rest ih =>
    intro st h hops
    rw [applyOps]
    refine ih (applyOp st op) ?_ ?_
    · rw [applyOp_childOwn_other st op k (hops op (List.mem_cons_self op rest))]
      exact h
    · exact fun op2 hop2 => hops op2 (List.mem_cons_of_mem op hop2)

lemma parentOps_preserve_childOwn :
    ∀ (ops : List SetOp) (st : MountedState),
      (∀ op ∈ ops, isParentSet op = true) →
      (applyOps st ops).childOwn = st.childOwn := by
  intro ops
  induction ops with
  | nil => intro st _; rfl
  | cons op rest ih =>
    intro st hops
    rw [applyOps]
    rw [ih (applyOp st op) (fun op2 h2 => hops op2 (List.mem_cons_of_mem op h2))]
    cases op with
    | parentSet k2 v => rfl
    | childSet k2 v =>
      have hfalse := hops (SetOp.childSet k2 v) (List.mem_cons_self _ _)
      simp [isParentSet] at hfalse

/-- C8: with prototype-delegated settings, (i) a value assigned on the
parent under a key the child has never set is immediately observed by the
child's accessor; (ii) after any sequence of operations none of which
writes `k` on the child, the child's accessor for `k` yields exactly the
parent's current own value; and (iii) once the child sets `k` itself, its
accessor keeps returning the child's own value no matter what further
parent assignments occur — parent changes are no longer observed. -/
theorem settings_inherited_iff_not_overridden (st : MountedState) (k : String) :
    (∀ v, settingsLookup st.childOwn k = none →
      childGet (applyOp st (SetOp.parentSet k v)) k = some v) ∧
    (∀ ops, settingsLookup st.childOwn k = none →
      (∀ op ∈ ops, childWrites op k = false) →
      childGet (applyOps st ops) k
        = settingsLookup (applyOps st ops).parentSettings k) ∧
    (∀ v ops, (∀ op ∈ ops, isParentSet op = true) →
      childGet (applyOps (applyOp st (SetOp.childSet k v)) ops) k = some v) := by
  refine ⟨?_, ?_, ?_⟩
  · intro v hown
    unfold childGet
    have h2 : settingsLookup (applyOp st (SetOp.parentSet k v)).childOwn k = none := hown
    rw [h2]
    exact express_set_lookup_self st.parentSettings k v
  · intro ops hown hops
    have hrec : settingsLookup (applyOps st ops).childOwn k = none :=
      childNotSet_stays_unset k ops st hown hops
    unfold childGet
    rw [hrec]
  · intro v ops hops
    unfold childGet
    have hpre : (applyOps (applyOp st (SetOp.childSet k v)) ops).childOwn
        = (applyOp st (SetOp.childSet k v)).childOwn :=
      parentOps_preserve_childOwn ops _ hops
    rw [hpre]
    have hown : settingsLookup (applyOp st (SetOp.childSet k v)).childOwn k = some v :=
      express_set_lookup_self st.childOwn k v
    rw [hown]

/-- Witness for C8 on empty stores and the key `foo`: the child sees a
parent assignment, tracks the parent while it never wrote `foo`, and after
setting `foo` to 3 keeps seeing 3 despite a later parent assignment of 4. -/
theorem settings_inherited_iff_not_overridden_witness :
    childGet (applyOp ⟨[], []⟩ (SetOp.parentSet "foo" (JsValue.num 1))) "foo"
      = some (JsValue.num 1) ∧
    childGet (applyOps ⟨[], []⟩ [SetOp.parentSet "foo" (JsValue.num 2)]) "foo"
      = settingsLookup
          (applyOps ⟨[], []⟩ [SetOp.parentSet "foo" (JsValue.num 2)]).parentSettings
          "foo" ∧
    childGet (applyOps (applyOp ⟨[], []⟩ (SetOp.childSet "foo" (JsValue.num 3)))
        [SetOp.parentSet "foo" (JsValue.num 4)]) "foo"
      = some (JsValue.num 3) := by
  have h := settings_inherited_iff_not_overridden ⟨[], []⟩ "foo"
  refine ⟨h.1 (JsValue.num 1) rfl, ?_, ?_⟩
  · refine h.2.1 [SetOp.parentSet "foo" (JsValue.num 2)] rfl ?_
    intro op hop
    rw [List.mem_singleton.1 hop]
    rfl
  · refine h.2.2 (JsValue.num 3) [SetOp.parentSet "foo" (JsValue.num 4)] ?_
    intro op hop
    rw [List.mem_singleton.1 hop]
    rfl

end Express6
